import Mathlib

/-!
Shallow embedding of the `bemmed` BEM class-name composer
(current implementation: `src/index.ts`; the legacy `src/bemmed.js`
implements the same API with a few behavioral differences noted inline).

JavaScript dynamic values are embedded as inductive types:
`BemPart` for the stored block/element/modifier slots of a BEM instance,
`ModArg` for the values accepted by the modifier-normalization
algorithm, and `Item` for the entries of a `BEMList`.  Strict equality
(`===`) on primitives is structural, with `NaN !== NaN`; on objects it
is reference equality, which this value-level embedding reads as
structural equality of the (immutable) values.
-/

/-- JS integral number rendered by `Number.prototype.toString`. -/
def jsNumToString (n : Int) : String := toString n

/-- A JS value stored in the `b`/`e`/`m` slots of a BEM instance. -/
inductive BemPart where
  | pstr (s : String)
  | pnum (n : Int)
  | pnan
  | pbool (b : Bool)
  | pnull
  | pundef
deriving DecidableEq, Repr

/-- JS truthiness (`!!value`) of a stored part. -/
def partTruthy : BemPart → Bool
  | .pstr s => s != ""
  | .pnum n => n != 0
  | .pnan => false
  | .pbool b => b
  | .pnull => false
  | .pundef => false

/-- Embeds `isValidBEMPart` (src/index.ts line 10): `value === 0 || !!value`. -/
def isValidBEMPart (value : BemPart) : Bool :=
  value == BemPart.pnum 0 || partTruthy value

/-- JS string interpolation `${value}` of a stored part. -/
def partToString : BemPart → String
  | .pstr s => s
  | .pnum n => jsNumToString n
  | .pnan => "NaN"
  | .pbool b => cond b "true" "false"
  | .pnull => "null"
  | .pundef => "undefined"

/-- Embeds `createBEMPart` (src/index.ts line 20):
`isValidBEMPart(value) ? prefix + value : ""` (binder renamed from
`prefix`). -/
def createBEMPart (value : BemPart) (pre : String) : String :=
  if isValidBEMPart value then pre ++ partToString value else ""

/-- Embeds `Array.prototype.indexOf` under a strict-equality test `eq`:
index of the first match, `-1` when absent. -/
def jsIndexOf (eq : α → α → Bool) (xs : List α) (v : α) : Int :=
  match xs.findIdx? (fun y => eq y v) with
  | some i => Int.ofNat i
  | none => -1

/-- Embeds `dedupe` (src/index.ts line 29):
`array.filter((value, index) => array.indexOf(value) === index)`. -/
def dedupe (eq : α → α → Bool) (array : List α) : List α :=
  ((array.enum.filter (fun p => jsIndexOf eq array p.2 == Int.ofNat p.1)).map Prod.snd)

/-- A JS value passed as a modifier argument (`ModifierArgument` in
src/index.ts): a primitive, an array of modifier arguments, or a
condition object whose entries are iterated in enumeration order. -/
inductive ModArg where
  | mstr (s : String)
  | mnum (n : Int)
  | mnan
  | mbool (b : Bool)
  | mnull
  | mundef
  | marr (xs : List ModArg)
  | mobj (entries : List (String × ModArg))

/-- Strict equality (`===`) against the number literal `0`. -/
def modArgIsZero : ModArg → Bool
  | .mnum 0 => true
  | _ => false

mutual

/-- Strict equality (`===`) between modifier arguments: structural on
primitives with `NaN !== NaN`; on arrays and objects it models
reference equality, read as structural equality of immutable values. -/
def beqModArg : ModArg → ModArg → Bool
  | .mstr a, .mstr b => a == b
  | .mnum a, .mnum b => a == b
  | .mnan, .mnan => false
  | .mbool a, .mbool b => a == b
  | .mnull, .mnull => true
  | .mundef, .mundef => true
  | .marr xs, .marr ys => beqModArgList xs ys
  | .mobj es, .mobj fs => beqModArgEntries es fs
  | _, _ => false

/-- Pointwise `beqModArg` on lists. -/
def beqModArgList : List ModArg → List ModArg → Bool
  | [], [] => true
  | x :: xs, y :: ys => beqModArg x y && beqModArgList xs ys
  | _, _ => false

/-- Pointwise `beqModArg` on object entry lists. -/
def beqModArgEntries : List (String × ModArg) → List (String × ModArg) → Bool
  | [], [] => true
  | (k, v) :: xs, (l, w) :: ys => k == l && (beqModArg v w && beqModArgEntries xs ys)
  | _, _ => false

end

/-- JS truthiness (`!!input`) of a modifier argument: arrays and
objects are always truthy, even when empty. -/
def modArgTruthy : ModArg → Bool
  | .mstr s => s != ""
  | .mnum n => n != 0
  | .mnan => false
  | .mbool b => b
  | .mnull => false
  | .mundef => false
  | .marr _ => true
  | .mobj _ => true

/-- Result of `createModifiers` (src/index.ts): `null`, a single
modifier string, or an array of at least two modifier strings. -/
inductive ModResult where
  | mrnull
  | one (m : String)
  | many (ms : List String)
deriving DecidableEq, Repr

/-- The final length dispatch of `createModifiers` (src/index.ts lines
83-85): `mods.length === 0` gives `null`, length 1 gives the single
string, otherwise the array. -/
def mkModsResult : List String → ModResult
  | [] => .mrnull
  | [m] => .one m
  | ms => .many ms

/-- Spread of one sub-result onto the accumulator, as done by
`mods.concat(subMods)` when `subMods !== null` (src/index.ts line 71):
array results are spliced, a single string is appended. -/
def modsToList : ModResult → List String
  | .mrnull => []
  | .one m => [m]
  | .many ms => ms

/-- The object branch of `createModifiers` (src/index.ts lines 75-80):
`Object.entries(input).reduce((mods, [mod, condition]) =>
condition ? mods.concat(mod) : mods, [])`. -/
def collectEntries (entries : List (String × ModArg)) : List String :=
  entries.foldl (fun mods kv => if modArgTruthy kv.2 then mods ++ [kv.1] else mods) []

mutual

/-- Embeds `createModifiers` (src/index.ts lines 48-86).  The guard is
`input !== 0 && !input`; strings and numbers return `input.toString()`;
arrays recurse and splice; any other object goes through
`Object.entries` (a boolean has no own enumerable entries, so it yields
the empty list and hence `null`). -/
def createModifiers (input : ModArg) : ModResult :=
  if !modArgIsZero input && !modArgTruthy input then .mrnull
  else
    match input with
    | .mstr s => .one s
    | .mnum n => .one (jsNumToString n)
    | .marr xs => mkModsResult (collectModsArr xs)
    | .mobj entries => mkModsResult (collectEntries entries)
    | _ => mkModsResult []

/-- The array branch of `createModifiers` (src/index.ts lines 69-72):
`input.reduce((mods, mod) => { const subMods = createModifiers(mod);
return subMods !== null ? mods.concat(subMods) : mods; }, [])`. -/
def collectModsArr : List ModArg → List String
  | [] => []
  | x :: xs => modsToList (createModifiers x) ++ collectModsArr xs

end

/-- A BEM instance (class `Bemmed` in src/index.ts): block, element and
modifier slots plus the element/modifier separators contributed by the
constructor the instance was created with. -/
structure Bemmed where
  b : String
  e : BemPart
  m : BemPart
  es : String
  ms : String
deriving DecidableEq, Repr

/-- An entry of a `BEMList`: a BEM instance, a nested list, or a
primitive. -/
inductive Item where
  | bem (x : Bemmed)
  | list (xs : List Item)
  | str (s : String)
  | num (n : Int)
  | bool (b : Bool)
  | null
  | undef

mutual

/-- Strict equality (`===`) between list entries: structural on
primitives; on BEM instances and nested lists it models reference
equality, read as structural equality of immutable values. -/
def beqItem : Item → Item → Bool
  | .bem a, .bem b => a == b
  | .list xs, .list ys => beqItemList xs ys
  | .str a, .str b => a == b
  | .num a, .num b => a == b
  | .bool a, .bool b => a == b
  | .null, .null => true
  | .undef, .undef => true
  | _, _ => false

/-- Pointwise `beqItem` on lists. -/
def beqItemList : List Item → List Item → Bool
  | [], [] => true
  | x :: xs, y :: ys => beqItem x y && beqItemList xs ys
  | _, _ => false

end

/-- Models `Array.prototype.includes`-style membership by strict equality. -/
def itemIn (r : Item) (l : List Item) : Bool :=
  l.any (fun y => beqItem y r)

/-- Embeds `Bemmed.prototype.toString` (src/index.ts lines 246-250):
`this.b + createBEMPart(this.e, this.es) + createBEMPart(this.m, this.ms)`. -/
def Bemmed.toString (x : Bemmed) : String :=
  x.b ++ createBEMPart x.e x.es ++ createBEMPart x.m x.ms

/-- Embeds `Bemmed.prototype.modifier` (src/index.ts lines 204-218): normalize
the variadic arguments through `createModifiers`; with nothing valid
return `this`; with a single modifier string return one derived
instance; with several, de-duplicate and return a `BEMList` of derived
instances.  Derived instances are built by `new this.cls(this.b,
this.e, m)` and therefore keep the separators of this instance. -/
def Bemmed.modifier (x : Bemmed) (modifiers : List ModArg) : Item :=
  match createModifiers (.marr modifiers) with
  | .mrnull => .bem x
  | .one m => .bem ⟨x.b, x.e, .pstr m, x.es, x.ms⟩
  | .many [] => .bem x
  | .many ms =>
      .list ((dedupe (fun a b => a == b) ms).map
        (fun m => Item.bem ⟨x.b, x.e, .pstr m, x.es, x.ms⟩))

/-- Embeds `Bemmed.prototype.concat` (src/index.ts lines 238-240):
`BEMList.from([this, ...dedupe(items)])`.  The spread inserts each
de-duplicated argument as one entry; a BEMList argument stays nested. -/
def bemConcat (x : Bemmed) (items : List Item) : List Item :=
  .bem x :: dedupe beqItem items

/-- Embeds `Bemmed.prototype.withMod` (src/index.ts lines 226-231):
de-duplicate the raw arguments, apply `modifier` to each one
separately, keep only the results that are a `BEMList` or an instance
with a truthy modifier, and concatenate `this` with the survivors. -/
def bemWithMod (x : Bemmed) (modifiers : List ModArg) : List Item :=
  let mods := ((dedupe beqModArg modifiers).map (fun m => x.modifier [m])).filter
    (fun r => match r with
      | .list _ => true
      | .bem y => partTruthy y.m
      | _ => false)
  bemConcat x mods

/-- Embeds `Bemmed.prototype.element` (src/index.ts lines 159-165): a derived
instance with the new element and no modifier; when modifier arguments
are present, the result of `withMod` on that derived instance. -/
def Bemmed.element (x : Bemmed) (element : String) (modifiers : List ModArg) : Item :=
  let bem : Bemmed := ⟨x.b, .pstr element, .pnull, x.es, x.ms⟩
  match modifiers with
  | [] => .bem bem
  | _ => .list (bemWithMod bem modifiers)

/-- Embeds `Bemmed.prototype.elements` (src/index.ts lines 176-178):
`BEMList.from(elements).map((element) => this.element(element))`. -/
def Bemmed.elements (x : Bemmed) (elements : List String) : List Item :=
  elements.map (fun element => x.element element [])

/-- Embeds `Bemmed.prototype.withElem` (src/index.ts lines 192-194):
`this.concat(...this.elements(...elements))`. -/
def Bemmed.withElem (x : Bemmed) (elements : List String) : List Item :=
  bemConcat x (x.elements elements)

/-- Embeds `isValidBEMPart` applied to a `BEMList` entry (the filter in
`BEMList.prototype.toString`): objects and arrays are truthy, the
number `0` passes the `=== 0` test, and falsy primitives fail. -/
def itemIsValid : Item → Bool
  | .bem _ => true
  | .list _ => true
  | .str s => s != ""
  | .num _ => true
  | .bool b => b
  | .null => false
  | .undef => false

/-- Embeds `Array.prototype.join(" ")`. -/
def joinWithSpace : List String → String
  | [] => ""
  | [s] => s
  | s :: rest => s ++ " " ++ joinWithSpace rest

mutual

/-- JS stringification of one `BEMList` entry. -/
def itemToString : Item → String
  | .bem x => Bemmed.toString x
  | .list xs => joinWithSpace (stringifyValid xs)
  | .str s => s
  | .num n => jsNumToString n
  | .bool b => cond b "true" "false"
  | .null => "null"
  | .undef => "undefined"

/-- Fuses `this.filter(isValidBEMPart).map((bem) => bem.toString())`, the
filter-and-map pipeline of `BEMList.prototype.toString`, fused into one
pass. -/
def stringifyValid : List Item → List String
  | [] => []
  | x :: xs =>
      if itemIsValid x then itemToString x :: stringifyValid xs
      else stringifyValid xs

end

/-- Embeds `BEMList.prototype.toString` (src/index.ts lines 97-101): filter
out invalid entries, stringify each survivor, join with one space. -/
def BEMList.toString (l : List Item) : String :=
  joinWithSpace (stringifyValid l)

/-- Embeds `BEMList.prototype.concat` (src/index.ts lines 115-117):
`super.concat(...dedupe(items))`.  `Array.prototype.concat` splices
array arguments one level deep and appends everything else. -/
def BEMList.concat (l : List Item) (items : List Item) : List Item :=
  l ++ (dedupe beqItem items).foldr
    (fun it acc => match it with
      | .list ys => ys ++ acc
      | it => it :: acc) []

/-- Embeds `BEMSetupOptions` (src/index.ts lines 480-483). -/
structure BEMSetupOptions where
  elementSeparator : Option String
  modifierSeparator : Option String

/-- Embeds `setup` (src/index.ts lines 485-495): returns a constructor whose
instances carry the configured separators (defaults `__` and `--`). -/
def setup (options : BEMSetupOptions) : String → BemPart → BemPart → Bemmed :=
  fun b e m =>
    ⟨b, e, m, options.elementSeparator.getD "__", options.modifierSeparator.getD "--"⟩

/-- Embeds `const BEM = setup()` (src/index.ts line 497). -/
def BEM : String → BemPart → BemPart → Bemmed :=
  setup ⟨none, none⟩

/-! ## General lemmas about the embedded operations -/

theorem dedupe_single (eq : α → α → Bool) (x : α) (h : eq x x = true) :
    dedupe eq [x] = [x] := by
  simp [dedupe, jsIndexOf, List.enum, List.enumFrom, List.findIdx?_cons, h]

theorem dedupe_pair (eq : α → α → Bool) (x : α) (h : eq x x = true) :
    dedupe eq [x, x] = [x] := by
  simp [dedupe, jsIndexOf, List.enum, List.enumFrom, List.findIdx?_cons, h]

theorem mem_of_mem_dedupe {eq : α → α → Bool} {l : List α} {y : α}
    (h : y ∈ dedupe eq l) : y ∈ l := by
  simp only [dedupe, List.mem_map, List.mem_filter] at h
  obtain ⟨p, ⟨hp, _⟩, rfl⟩ := h
  rw [List.mem_enum_iff_getElem?] at hp
  exact List.getElem?_mem hp

mutual

theorem beqItem_rfl : ∀ x : Item, beqItem x x = true
  | .bem a => by simp [beqItem]
  | .list xs => by simpa [beqItem] using beqItemList_rfl xs
  | .str s => by simp [beqItem]
  | .num n => by simp [beqItem]
  | .bool b => by simp [beqItem]
  | .null => rfl
  | .undef => rfl

theorem beqItemList_rfl : ∀ xs : List Item, beqItemList xs xs = true
  | [] => rfl
  | x :: xs => by simp [beqItemList, beqItem_rfl x, beqItemList_rfl xs]

end

theorem collectEntries_eq (entries : List (String × ModArg)) :
    collectEntries entries
      = (entries.filter (fun kv => modArgTruthy kv.2)).map Prod.fst := by
  suffices h : ∀ acc, entries.foldl
      (fun mods kv => if modArgTruthy kv.2 then mods ++ [kv.1] else mods) acc
      = acc ++ (entries.filter (fun kv => modArgTruthy kv.2)).map Prod.fst by
    simpa [collectEntries] using h []
  induction entries with
  | nil => simp
  | cons kv rest ih =>
      intro acc
      by_cases hkv : modArgTruthy kv.2 = true
      · simp [List.foldl_cons, hkv, ih]
      · simp only [Bool.not_eq_true] at hkv
        simp [List.foldl_cons, hkv, ih]

/-! ## Separator tracking (for the configuration claims) -/

mutual

/-- Every BEM instance inside the entry carries exactly the given
separator pair. -/
def itemSepsOk (es ms : String) : Item → Bool
  | .bem x => x.es == es && x.ms == ms
  | .list xs => itemsSepsOk es ms xs
  | _ => true

/-- Applies `itemSepsOk` on every entry of a list. -/
def itemsSepsOk (es ms : String) : List Item → Bool
  | [] => true
  | x :: xs => itemSepsOk es ms x && itemsSepsOk es ms xs

end

theorem itemsSepsOk_iff (es ms : String) (l : List Item) :
    itemsSepsOk es ms l = true ↔ ∀ y ∈ l, itemSepsOk es ms y = true := by
  induction l with
  | nil => simp [itemsSepsOk]
  | cons x xs ih => simp [itemsSepsOk, Bool.and_eq_true, ih]

theorem sepsOk_bem_self (x : Bemmed) : itemSepsOk x.es x.ms (.bem x) = true := by
  simp [itemSepsOk]

theorem sepsOk_modifier (x : Bemmed) (mods : List ModArg) :
    itemSepsOk x.es x.ms (x.modifier mods) = true := by
  cases h : createModifiers (.marr mods) with
  | mrnull => simp [Bemmed.modifier, h, itemSepsOk]
  | one m => simp [Bemmed.modifier, h, itemSepsOk]
  | many ms' =>
      cases ms' with
      | nil => simp [Bemmed.modifier, h, itemSepsOk]
      | cons m rest =>
          simp only [Bemmed.modifier, h, itemSepsOk]
          rw [itemsSepsOk_iff]
          intro y hy
          simp only [List.mem_map] at hy
          obtain ⟨m', _, rfl⟩ := hy
          simp [itemSepsOk]

theorem sepsOk_concat (x : Bemmed) (items : List Item)
    (h : itemsSepsOk x.es x.ms items = true) :
    itemsSepsOk x.es x.ms (bemConcat x items) = true := by
  rw [itemsSepsOk_iff] at h ⊢
  intro y hy
  rcases List.mem_cons.mp hy with rfl | hy'
  · exact sepsOk_bem_self x
  · exact h y (mem_of_mem_dedupe hy')

theorem sepsOk_withMod (x : Bemmed) (mods : List ModArg) :
    itemsSepsOk x.es x.ms (bemWithMod x mods) = true := by
  apply sepsOk_concat
  rw [itemsSepsOk_iff]
  intro y hy
  have hy' := List.mem_of_mem_filter hy
  simp only [List.mem_map] at hy'
  obtain ⟨m, _, rfl⟩ := hy'
  exact sepsOk_modifier x [m]

theorem sepsOk_element (x : Bemmed) (el : String) (mods : List ModArg) :
    itemSepsOk x.es x.ms (x.element el mods) = true := by
  cases mods with
  | nil => simp [Bemmed.element, itemSepsOk]
  | cons m rest =>
      simp only [Bemmed.element, itemSepsOk]
      simpa using sepsOk_withMod ⟨x.b, .pstr el, .pnull, x.es, x.ms⟩ (m :: rest)

theorem sepsOk_elements (x : Bemmed) (names : List String) :
    itemsSepsOk x.es x.ms (x.elements names) = true := by
  rw [itemsSepsOk_iff]
  intro y hy
  simp only [Bemmed.elements, List.mem_map] at hy
  obtain ⟨n, _, rfl⟩ := hy
  exact sepsOk_element x n []

theorem sepsOk_withElem (x : Bemmed) (names : List String) :
    itemsSepsOk x.es x.ms (x.withElem names) = true :=
  sepsOk_concat x _ (sepsOk_elements x names)

/-! ## Claims -/

/-- C1: `toString()` returns the block string, then
`elementSeparator + element` exactly when the element is valid (`0` or
truthy), then `modifierSeparator + modifier` exactly when the modifier
is valid; `new ClassName("block", 0)` renders `"block__0"`, and the
empty string, `null`, `undefined`, `false` and `NaN` parts are omitted,
so `new ClassName("block", null, undefined)` renders `"block"`. -/
theorem claim_C1_toString_rendering :
    (∀ (b : String) (e m : BemPart) (es ms : String),
        Bemmed.toString ⟨b, e, m, es, ms⟩
          = b ++ (if isValidBEMPart e then es ++ partToString e else "")
              ++ (if isValidBEMPart m then ms ++ partToString m else ""))
    ∧ (BEM "block" (.pnum 0) .pnull).toString = "block__0"
    ∧ (BEM "block" .pnull .pundef).toString = "block"
    ∧ isValidBEMPart (.pnum 0) = true
    ∧ isValidBEMPart (.pstr "") = false
    ∧ isValidBEMPart .pnull = false
    ∧ isValidBEMPart .pundef = false
    ∧ isValidBEMPart (.pbool false) = false
    ∧ isValidBEMPart .pnan = false :=
  ⟨fun _ _ _ _ _ => rfl, rfl, rfl, rfl, rfl, rfl, rfl, rfl, rfl⟩

/-- C2: `.modifier()` with zero valid modifiers (no arguments, or only
arguments that `createModifiers` normalizes to nothing) returns the
receiver itself, unchanged — `return this` in src/index.ts line 209.
(In this pure value embedding, returning the same instance is returning
the same `Bemmed` value.  The legacy `src/bemmed.js` instead returned a
fresh instance with an undefined modifier here; the current
implementation is the identity the claim states.) -/
theorem claim_C2_modifier_identity :
    (∀ x : Bemmed, x.modifier [] = .bem x)
    ∧ ∀ (x : Bemmed) (mods : List ModArg),
        createModifiers (.marr mods) = ModResult.mrnull →
        x.modifier mods = .bem x := by
  refine ⟨fun x => rfl, fun x mods h => ?_⟩
  simp [Bemmed.modifier, h]

/-- Witness for C2 at `new ClassName("block").modifier(null, false,
undefined)`. -/
theorem claim_C2_modifier_identity_witness :
    (BEM "block" .pnull .pnull).modifier [.mnull, .mbool false, .mundef]
      = .bem (BEM "block" .pnull .pnull) :=
  claim_C2_modifier_identity.2 (BEM "block" .pnull .pnull)
    [.mnull, .mbool false, .mundef] (by decide)

/-- C3: `elements(...names)` returns one derived instance per name, in
input order, each equal to `.element(name)` with no modifier, and the
result does not contain the receiver; `new
ClassName("list").elements("item", "link")` is a two-item list
rendering `"list__item list__link"`. -/
theorem claim_C3_elements :
    (∀ (x : Bemmed) (names : List String),
        x.elements names = names.map (fun n => x.element n []))
    ∧ (∀ (x : Bemmed) (names : List String),
        x.elements names
          = names.map (fun n => Item.bem ⟨x.b, .pstr n, .pnull, x.es, x.ms⟩))
    ∧ (BEM "list" .pnull .pnull).elements ["item", "link"]
        = [.bem (BEM "list" (.pstr "item") .pnull),
           .bem (BEM "list" (.pstr "link") .pnull)]
    ∧ ((BEM "list" .pnull .pnull).elements ["item", "link"]).length = 2
    ∧ BEMList.toString ((BEM "list" .pnull .pnull).elements ["item", "link"])
        = "list__item list__link"
    ∧ itemIn (.bem (BEM "list" .pnull .pnull))
        ((BEM "list" .pnull .pnull).elements ["item", "link"]) = false :=
  ⟨fun _ _ => rfl, fun _ _ => rfl, rfl, rfl, rfl, rfl⟩

/-- C4: a plain object passed as single modifier argument is a
condition map: each entry whose value is truthy contributes its key, in
entry order; keys with falsy values are excluded;
`new ClassName("block").modifier({a: true, b: false, c: 1})` renders
`"block--a block--c"`. -/
theorem claim_C4_condition_map :
    (∀ entries : List (String × ModArg),
        createModifiers (.mobj entries)
          = mkModsResult
              ((entries.filter (fun kv => modArgTruthy kv.2)).map Prod.fst))
    ∧ itemToString ((BEM "block" .pnull .pnull).modifier
          [.mobj [("a", .mbool true), ("b", .mbool false), ("c", .mnum 1)]])
        = "block--a block--c" := by
  refine ⟨fun entries => ?_, by decide⟩
  simp [createModifiers, modArgTruthy, modArgIsZero, collectEntries_eq]

/-- C5: an invalid modifier input contributes nothing even when mixed
with valid inputs: `c.modifier(m, null, false, undefined)` equals
`c.modifier(m)`, a single derived instance carrying modifier `m`. -/
theorem claim_C5_invalid_inputs_dropped :
    ∀ (x : Bemmed) (m : String), m ≠ "" →
      x.modifier [.mstr m, .mnull, .mbool false, .mundef]
          = x.modifier [.mstr m]
      ∧ x.modifier [.mstr m] = .bem ⟨x.b, x.e, .pstr m, x.es, x.ms⟩ := by
  intro x m h
  have hm : (m != "") = true := by simpa [bne] using h
  constructor
  · simp [Bemmed.modifier, createModifiers, collectModsArr, modsToList,
      mkModsResult, modArgIsZero, modArgTruthy, hm]
  · simp [Bemmed.modifier, createModifiers, collectModsArr, modsToList,
      mkModsResult, modArgIsZero, modArgTruthy, hm]

/-- Witness for C5 at `new ClassName("block", "el").modifier("mod",
null, false, undefined)`. -/
theorem claim_C5_invalid_inputs_dropped_witness :
    (BEM "block" (.pstr "el") .pnull).modifier
        [.mstr "mod", .mnull, .mbool false, .mundef]
      = (BEM "block" (.pstr "el") .pnull).modifier [.mstr "mod"]
    ∧ (BEM "block" (.pstr "el") .pnull).modifier [.mstr "mod"]
      = .bem (BEM "block" (.pstr "el") (.pstr "mod")) :=
  claim_C5_invalid_inputs_dropped (BEM "block" (.pstr "el") .pnull) "mod"
    (by decide)

/-- C6: `withMod` filters out only derived results that are instances
with no (falsy) modifier; the numeral `0` is normalized to the modifier
string `"0"`, which is truthy, so `c.withMod(0)` is a two-item list:
the receiver followed by a derived instance whose rendering carries the
`modifierSeparator + "0"` suffix. -/
theorem claim_C6_withMod_zero :
    ∀ x : Bemmed,
      bemWithMod x [.mnum 0]
          = [.bem x, .bem ⟨x.b, x.e, .pstr "0", x.es, x.ms⟩]
      ∧ (bemWithMod x [.mnum 0]).length = 2
      ∧ Bemmed.toString ⟨x.b, x.e, .pstr "0", x.es, x.ms⟩
          = x.b ++ createBEMPart x.e x.es ++ (x.ms ++ "0") := by
  intro x
  have h1 : dedupe beqModArg [ModArg.mnum 0] = [ModArg.mnum 0] := rfl
  have h2 : createModifiers (.marr [ModArg.mnum 0]) = .one "0" := rfl
  have h3 : dedupe beqItem [Item.bem ⟨x.b, x.e, .pstr "0", x.es, x.ms⟩]
      = [Item.bem ⟨x.b, x.e, .pstr "0", x.es, x.ms⟩] :=
    dedupe_single _ _ (beqItem_rfl _)
  have main : bemWithMod x [.mnum 0]
      = [.bem x, .bem ⟨x.b, x.e, .pstr "0", x.es, x.ms⟩] := by
    simp [bemWithMod, h1, Bemmed.modifier, h2, partTruthy, bemConcat, h3]
  exact ⟨main, by rw [main]; rfl, rfl⟩

/-- C7 fails on the code: `Bemmed.prototype.concat` builds
`BEMList.from([this, ...dedupe(items)])`, and the spread inserts a
`BEMList` argument as one nested entry instead of splicing its
entries: for the receiver `new ClassName("b")` and the two-entry list
`L = ["x", "y"]`, `c.concat(L)` has two entries (the second being `L`
itself), not the three entries the claim requires. -/
theorem claim_C7_concat_counterexample :
    bemConcat (BEM "b" .pnull .pnull) [Item.list [Item.str "x", Item.str "y"]]
        = [Item.bem (BEM "b" .pnull .pnull),
           Item.list [Item.str "x", Item.str "y"]]
    ∧ (bemConcat (BEM "b" .pnull .pnull)
          [Item.list [Item.str "x", Item.str "y"]]).length
        ≠ 1 + [Item.str "x", Item.str "y"].length :=
  ⟨rfl, by decide⟩

/-- C7 (amended): `ClassName.concat(...items)` returns the receiver
followed by the de-duplicated items kept exactly as passed — a
`ClassNameList` argument stays one nested entry rather than being
spliced, so `c.concat(L)` is the two-entry list `[c, L]`. -/
theorem claim_C7_concat_amended :
    (∀ (c : Bemmed) (items : List Item),
        bemConcat c items = .bem c :: dedupe beqItem items)
    ∧ ∀ (c : Bemmed) (L : List Item),
        bemConcat c [.list L] = [.bem c, .list L] := by
  refine ⟨fun c items => rfl, fun c L => ?_⟩
  simp [bemConcat, dedupe_single _ _ (beqItem_rfl (Item.list L))]

/-- C8: `BEMList.prototype.concat` de-duplicates the incoming items
(against each other only) before appending, and returns a new list
whose entries start with the receiver's entries unchanged: for any
non-list item `x` passed twice, the result is the receiver's entries
followed by a single copy of `x`.  (The receiver itself is never
mutated — every operation of the embedding is a pure function; a list
argument is excluded here because `Array.prototype.concat` splices
array arguments, per the spec's own flattening rule.) -/
theorem claim_C8_list_concat_dedupes :
    ∀ (L : List Item) (x : Item), (∀ ys, x ≠ .list ys) →
      BEMList.concat L [x, x] = L ++ [x] := by
  intro L x h
  have hd : dedupe beqItem [x, x] = [x] := dedupe_pair _ _ (beqItem_rfl x)
  rw [BEMList.concat, hd]
  cases x with
  | list ys => exact absurd rfl (h ys)
  | bem a => rfl
  | str s => rfl
  | num n => rfl
  | bool b => rfl
  | null => rfl
  | undef => rfl

/-- Witness for C8 at `BEMList.from(["a"]).concat("b", "b")`. -/
theorem claim_C8_list_concat_dedupes_witness :
    BEMList.concat [Item.str "a"] [Item.str "b", Item.str "b"]
      = [Item.str "a", Item.str "b"] :=
  claim_C8_list_concat_dedupes [Item.str "a"] (Item.str "b")
    (fun _ h => Item.noConfusion h)

/-- C9: a constructor made by `setup`/`configure` uses exactly its own
separators (independently of other calls and of the default
constructor, whose separators stay `__` and `--`), and every
derivation — `element`, `modifier`, `elements`, `withElem`, `withMod`
— yields instances carrying the same separator pair as their origin;
with separators `~` and `~~`,
`new ClassName("block").element("el").modifier("mod")` renders
`"block~el~~mod"`. -/
theorem claim_C9_configure_separators :
    (∀ (o : BEMSetupOptions) (b : String) (e m : BemPart),
        (setup o b e m).es = o.elementSeparator.getD "__"
        ∧ (setup o b e m).ms = o.modifierSeparator.getD "--")
    ∧ (∀ (b : String) (e m : BemPart),
        (BEM b e m).es = "__" ∧ (BEM b e m).ms = "--")
    ∧ (∀ (x : Bemmed) (el : String) (mods : List ModArg),
        itemSepsOk x.es x.ms (x.element el mods) = true)
    ∧ (∀ (x : Bemmed) (mods : List ModArg),
        itemSepsOk x.es x.ms (x.modifier mods) = true)
    ∧ (∀ (x : Bemmed) (names : List String),
        itemsSepsOk x.es x.ms (x.elements names) = true)
    ∧ (∀ (x : Bemmed) (names : List String),
        itemsSepsOk x.es x.ms (x.withElem names) = true)
    ∧ (∀ (x : Bemmed) (mods : List ModArg),
        itemsSepsOk x.es x.ms (bemWithMod x mods) = true)
    ∧ (setup ⟨some "~", some "~~"⟩ "block" .pnull .pnull).element "el" []
        = .bem ⟨"block", .pstr "el", .pnull, "~", "~~"⟩
    ∧ Bemmed.modifier ⟨"block", .pstr "el", .pnull, "~", "~~"⟩ [.mstr "mod"]
        = .bem ⟨"block", .pstr "el", .pstr "mod", "~", "~~"⟩
    ∧ Bemmed.toString ⟨"block", .pstr "el", .pstr "mod", "~", "~~"⟩
        = "block~el~~mod" :=
  ⟨fun _ _ _ _ => ⟨rfl, rfl⟩,
   fun _ _ _ => ⟨rfl, rfl⟩,
   sepsOk_element,
   sepsOk_modifier,
   sepsOk_elements,
   sepsOk_withElem,
   sepsOk_withMod,
   rfl,
   rfl,
   rfl⟩

/-- C10: the de-duplication in `ClassName.concat` only compares the
incoming items with each other, never with the receiver, which is
prepended unconditionally: `x.concat(x)` is a two-entry list holding
`x` twice and rendering `x`'s string twice, separated by one space. -/
theorem claim_C10_concat_keeps_receiver_duplicate :
    (∀ (x : Bemmed) (items : List Item),
        bemConcat x items = .bem x :: dedupe beqItem items)
    ∧ (∀ x : Bemmed, bemConcat x [.bem x] = [.bem x, .bem x])
    ∧ ∀ x : Bemmed,
        BEMList.toString (bemConcat x [.bem x])
          = Bemmed.toString x ++ " " ++ Bemmed.toString x := by
  have hpair : ∀ x : Bemmed, bemConcat x [.bem x] = [.bem x, .bem x] := by
    intro x
    simp [bemConcat, dedupe_single _ _ (beqItem_rfl (Item.bem x))]
  refine ⟨fun x items => rfl, hpair, fun x => ?_⟩
  rw [hpair x]
  rfl
